import Mathlib

/-!
Verification development for the `workspace` project inspector
(`src/workspace.py`).  The Python source is shallowly embedded: pure
helpers become Lean functions on `List Char` / `String`, the filesystem
and the external `git` process become explicit parameters (an entry
tree, a command environment `String → Except PyErr String`), and Python
exceptions become `Except PyErr` results.  Python's one-shot generator
of compiled `.gitignore` patterns is modelled by threading the list of
not-yet-consumed patterns through the recursive directory walk, exactly
as iterating a generator object consumes it.
-/

set_option maxRecDepth 10000

/-- Abbreviation for the character lists all Python string operations are
modelled on. -/
abbrev LC := List Char

/-- Python exception kinds that the embedded code can raise. -/
inductive PyErr where
  | processError
  | typeError
  | valueError
  | indexError
  | attributeError
  | unboundLocalError
  | decodeError
deriving DecidableEq, Repr

/-- Embedding of `str.startswith`: `startsWithL pre l` is true iff `pre` is
an initial segment of `l`. -/
def startsWithL : LC → LC → Bool
  | [], _ => true
  | _ :: _, [] => false
  | p :: ps, c :: cs => p = c && startsWithL ps cs

/-- Embedding of Python `str.startswith` on `String`s. -/
def pyStartsWith (pre s : String) : Bool :=
  startsWithL pre.toList s.toList

/-- Drop the literal pattern `p` from the front of `l`; `none` when `l` does
not begin with `p`.  Used to embed matching a literal piece of a regex. -/
def dropPre : LC → LC → Option LC
  | [], l => some l
  | _ :: _, [] => none
  | p :: ps, c :: cs => if p = c then dropPre ps cs else none

/-- Python whitespace test used by `str.split()`. -/
def pyIsSpace (c : Char) : Bool :=
  c = ' ' || c = '\t' || c = '\n' || c = '\r' || c = '\x0b' || c = '\x0c'

/-- Accumulator worker for `pySplit`. -/
def pySplitAux : LC → LC → List LC
  | [], acc => if acc = [] then [] else [acc.reverse]
  | c :: cs, acc =>
    if pyIsSpace c then
      if acc = [] then pySplitAux cs [] else acc.reverse :: pySplitAux cs []
    else pySplitAux cs (c :: acc)

/-- Embedding of Python `str.split()` (no argument): split on runs of
whitespace, discarding empty tokens. -/
def pySplit (l : LC) : List LC :=
  pySplitAux l []

/-- Embedding of Python `str.splitlines()` for newline-separated text:
`"a\nb\n"` gives `[a, b]`, `""` gives `[]`. -/
def pySplitlines : LC → List LC
  | [] => []
  | c :: cs =>
    if c = '\n' then [] :: pySplitlines cs
    else
      match pySplitlines cs with
      | [] => [[c]]
      | line :: rest => (c :: line) :: rest

/-- Embedding of Python `str.split('\n')`: split at every newline, keeping
empty pieces (`"".split('\n')` is `['']`). -/
def splitOnNl : LC → List LC
  | [] => [[]]
  | c :: cs =>
    if c = '\n' then [] :: splitOnNl cs
    else
      match splitOnNl cs with
      | [] => [[c]]
      | line :: rest => (c :: line) :: rest

/-- Value of a decimal digit string, as computed by Python `int` on an
all-digit token. -/
def digitsToNat (l : LC) : Nat :=
  l.foldl (fun acc c => acc * 10 + (c.toNat - 48)) 0

/-- Index of the last `'.'` in a name, if any (Python `str.rfind('.')`
restricted to found-case). -/
def rfindDot : LC → Option Nat
  | [] => none
  | c :: cs =>
    match rfindDot cs with
    | some i => some (i + 1)
    | none => if c = '.' then some 0 else none

/-- Embedding of `pathlib.PurePath.suffix` on a bare file name: the part
from the last dot on, provided that dot is neither the first nor the last
character; otherwise the empty string. -/
def pySuffixL (l : LC) : LC :=
  match rfindDot l with
  | some i => if 0 < i ∧ i < l.length - 1 then l.drop i else []
  | none => []

/-- `pathlib` suffix on `String`s. -/
def pySuffix (s : String) : String :=
  ⟨pySuffixL s.toList⟩

/-- The module-level `language_by_extension` table of `workspace.py`. -/
def language_by_extension : List (String × String) :=
  [(".pyw", "Python"), (".py", "Python"), (".go", "Go"), (".nim", "Nimrod"),
   (".js", "Javascript"), (".as", "ActionScript"), (".java", "Java")]

/-- Python `path.suffix in language_by_extension` (dict key membership). -/
def inLangTable (suf : String) : Bool :=
  language_by_extension.any (fun kv => kv.1 = suf)

/-- Embedding of `Files._convert_glob_to_regex`: the source applies, in
order, `'.' → '\.'`, `'*' → '.*'`, `'+' → '\+'`, `'/' → ''`.  No step
introduces a character rewritten by a later step, so the sequential
replaces coincide with this single character-wise expansion. -/
def convert_glob_to_regex (l : LC) : LC :=
  l.flatMap fun c =>
    if c = '.' then ['\\', '.']
    else if c = '*' then ['.', '*']
    else if c = '+' then ['\\', '+']
    else if c = '/' then []
    else [c]

/-- A compiled ignore pattern, abstracted to its observable behaviour: the
boolean test `re.match(compiled, name)` performed on a bare entry name. -/
abbrev Pat := String → Bool

/-- One pass of `for pattern in self.ignored_patterns: if pattern.match(name):
return` over the one-shot generator of compiled patterns: consumes leading
patterns until the first match.  Returns whether a pattern matched together
with the patterns the generator has not yet produced (all of them are
consumed when none matches). -/
def checkIgnored : List Pat → String → Bool × List Pat
  | [], _ => (false, [])
  | p :: ps, name => if p name then (true, ps) else checkIgnored ps name

mutual
/-- A directory entry of the scanned filesystem. -/
inductive Entry where
  | file (name : String)
  | dir (name : String) (children : EntryList)

/-- Children of a directory, in `iterdir` order. -/
inductive EntryList where
  | nil
  | cons (e : Entry) (rest : EntryList)
end

/-- Bare name of an entry (`path.name`). -/
def ename : Entry → String
  | .file n => n
  | .dir n _ => n

mutual
/-- Embedding of `Files._refresh_files`: `parent` is the parts of the
entry's parent path, `pats` the not-yet-consumed compiled ignore
patterns, `acc` the `self._files` accumulated so far.  Hidden or
temporary names (`.`/`__` prefix) prune the subtree before patterns are
consulted; otherwise the one-shot pattern generator is iterated; files
with a recognized extension are appended; directories recurse. -/
def refreshEntry (parent : List String) (pats : List Pat)
    (acc : List (List String)) (e : Entry) : List Pat × List (List String) :=
  let name := ename e
  if pyStartsWith "." name || pyStartsWith "__" name then (pats, acc)
  else
    match checkIgnored pats name with
    | (true, pats1) => (pats1, acc)
    | (false, pats1) =>
      match e with
      | .file n => if inLangTable (pySuffix n) then (pats1, acc ++ [parent ++ [n]]) else (pats1, acc)
      | .dir n children => refreshChildren (parent ++ [n]) pats1 acc children

/-- Walk the children of a directory in order, threading the pattern
generator state and the file accumulator. -/
def refreshChildren (parent : List String) (pats : List Pat)
    (acc : List (List String)) : EntryList → List Pat × List (List String)
  | .nil => (pats, acc)
  | .cons e rest =>
    match refreshEntry parent pats acc e with
    | (pats1, acc1) => refreshChildren parent pats1 acc1 rest
end

/-- The structure constants of `class Project`. -/
def Project.EMPTY : String := "empty"

/-- Structure constant `Project.SINGLE_FILE`. -/
def Project.SINGLE_FILE : String := "single file"

/-- Structure constant `Project.MULTIPLE_FILES`. -/
def Project.MULTIPLE_FILES : String := "multiple files"

/-- Structure constant `Project.MODULE`. -/
def Project.MODULE : String := "module"

/-- Embedding of `Files._get_structure`: files are the recorded path part
lists, `root` the root path parts. -/
def get_structure (root : List String) (files : List (List String)) : String :=
  if files.length = 0 then Project.EMPTY
  else if files.any (fun f => f.length > root.length + 1) then Project.MODULE
  else if files.length = 1 then Project.SINGLE_FILE
  else Project.MULTIPLE_FILES

/-- Loop of `Files._get_size_info` over the recorded files: `readCount`
models opening a file as UTF-8 text and counting its lines, which raises
a decode error for non-text content.  Nothing catches that error: it
propagates out of the whole loop. -/
def sizeLoop (readCount : List String → Except PyErr Nat) :
    List (List String) → Nat → Nat → Option (List String) →
    Except PyErr (Nat × Option (List String))
  | [], sloc, _, largest => .ok (sloc, largest)
  | f :: rest, sloc, lsize, largest =>
    match readCount f with
    | .error e => .error e
    | .ok n =>
      if n > lsize then sizeLoop readCount rest (sloc + n) n (some f)
      else sizeLoop readCount rest (sloc + n) lsize largest

/-- Embedding of `Files._get_size_info`. -/
def get_size_info (readCount : List String → Except PyErr Nat)
    (files : List (List String)) : Except PyErr (Nat × Option (List String)) :=
  sizeLoop readCount files 0 0 none

/-- Scan for the first position where the text matches
`Fetch URL: (.+)`: the literal tag followed by a nonempty greedy run of
non-newline characters (the captured group). -/
def fetchAt (l : LC) : Option LC :=
  match dropPre "Fetch URL: ".toList l with
  | none => none
  | some rest =>
    let line := rest.takeWhile (fun c => c ≠ '\n')
    if line = [] then none else some line

/-- Embedding of `re.search('Fetch URL: (.+)', out)`: try each start
position from the left, returning the first captured group. -/
def searchFetchURL : LC → Option LC
  | [] => none
  | c :: cs =>
    match fetchAt (c :: cs) with
    | some v => some v
    | none => searchFetchURL cs

/-- Match `\[<tag><digits>\]\n` at the head of `l`, where `tag` is
`"[ahead "` or `"[behind "`; the greedy `\d+` group is the maximal digit
run, which must be followed by the literal `]` and a newline. -/
def tagAt (tag : LC) (l : LC) : Option Nat :=
  match dropPre tag l with
  | none => none
  | some rest =>
    let ds := rest.takeWhile Char.isDigit
    let rest2 := rest.dropWhile Char.isDigit
    if ds = [] then none
    else
      match rest2 with
      | ']' :: '\n' :: _ => some (digitsToNat ds)
      | _ => none

/-- Embedding of `re.search` for the bracketed ahead/behind markers: first
matching position from the left. -/
def searchTag (tag : LC) : LC → Option Nat
  | [] => none
  | c :: cs =>
    match tagAt tag (c :: cs) with
    | some v => some v
    | none => searchTag tag cs

/-- `self.regit('status -b --porcelain', r'\[ahead (\d+)\]\n', int) or 0`. -/
def aheadOf (out : String) : Nat :=
  (searchTag "[ahead ".toList out.toList).getD 0

/-- `self.regit('status -b --porcelain', r'\[behind (\d+)\]\n', int) or 0`. -/
def behindOf (out : String) : Nat :=
  (searchTag "[behind ".toList out.toList).getD 0

/-- Embedding of `re.search(r'^(\d+)', out)` followed by `int`: the maximal
leading digit run, or `none` when the output does not start with a digit
(in which case the source calls `int(None)` and raises `TypeError`). -/
def parseLeadingNat (l : LC) : Option Nat :=
  let ds := l.takeWhile Char.isDigit
  if ds = [] then none else some (digitsToNat ds)

/-- `len(self.git('status --porcelain')) > 0`. -/
def pyDirty (out : String) : Bool :=
  decide (0 < out.toList.length)

/-- Python `int` applied to one whitespace-free token of `git shortlog -s`
output: an all-digit token converts, anything else raises `ValueError`. -/
def parseIntToken (t : LC) : Except PyErr Nat :=
  if t ≠ [] ∧ t.all Char.isDigit then .ok (digitsToNat t) else .error .valueError

/-- `sum(int(p.split()[0]) for p in out.splitlines())`, evaluated left to
right: an empty line raises `IndexError` via `[0]`, a non-numeric first
token raises `ValueError`, and the first exception aborts the sum. -/
def sumCounts : List LC → Except PyErr Nat
  | [] => .ok 0
  | line :: rest =>
    match pySplit line with
    | [] => .error .indexError
    | tok :: _ =>
      match parseIntToken tok with
      | .error e => .error e
      | .ok k =>
        match sumCounts rest with
        | .error e => .error e
        | .ok m => .ok (k + m)

/-- Commit-count computation of `GitRepository.refresh` from the
`shortlog -s` output. -/
def commitCountParse (l : LC) : Except PyErr Nat :=
  sumCounts (pySplitlines l)

/-- The external `git` process: a map from the subcommand string passed to
`GitRepository.git` to its decoded standard output, or the exception the
invocation raises. -/
abbrev GitEnv := String → Except PyErr String

/-- The git subcommand `'log --format=%at"'` (the stray trailing quote is
present in the source). -/
def logAtCmd : String := "log --format=%at\""

/-- Mutable fields of a `GitRepository` object. -/
structure RepoState where
  origin : Option String
  is_dirty : Bool
  age : Int
  ahead : Nat
  behind : Nat
  synced : Bool
  commit_count : Nat
deriving DecidableEq, Repr

/-- Embedding of `GitRepository._get_origin`: extract the fetch URL and
treat the literal echo `origin` as "no remote". -/
def getOrigin (env : GitEnv) : Except PyErr (Option String) :=
  match env "remote show -n origin" with
  | .error e => .error e
  | .ok out =>
    match searchFetchURL out.toList with
    | none => .ok none
    | some o => if o = "origin".toList then .ok none else .ok (some ⟨o⟩)

/-- Embedding of `GitRepository.refresh` at wall-clock time `now`.  The
source assigns the fields one after another; each failing command or
parse raises at that point, so every early return below exhibits exactly
the fields already overwritten when the exception propagates.  The
second component is the exception, `none` on full success. -/
def refresh (env : GitEnv) (now : Int) (s : RepoState) : RepoState × Option PyErr :=
  match getOrigin env with
  | .error e => (s, some e)
  | .ok org =>
    let s1 := { s with origin := org }
    match env "status --porcelain" with
    | .error e => (s1, some e)
    | .ok out1 =>
      let s2 := { s1 with is_dirty := pyDirty out1 }
      match env logAtCmd with
      | .error e => (s2, some e)
      | .ok out2 =>
        match parseLeadingNat out2.toList with
        | none => (s2, some .typeError)
        | some ts =>
          let s3 := { s2 with age := now - ts }
          match env "status -b --porcelain" with
          | .error e => (s3, some e)
          | .ok out3 =>
            let s4 := { s3 with ahead := aheadOf out3 }
            match env "status -b --porcelain" with
            | .error e => (s4, some e)
            | .ok out4 =>
              let s5 := { s4 with behind := behindOf out4 }
              let s6 := { s5 with synced := (behindOf out4 == 0) && (aheadOf out3 == 0) }
              match env "shortlog -s" with
              | .error e => (s6, some e)
              | .ok out5 =>
                match commitCountParse out5.toList with
                | .error e => (s6, some e)
                | .ok n => ({ s6 with commit_count := n }, none)

/-- True when no character of `l` is a newline: the region a run of regex
`.` atoms can cover (Python `re.DOTALL` is off). -/
def noNl (l : LC) : Bool :=
  l.all (fun c => c ≠ '\n')

/-- All decompositions `l = a ++ b` with `a` nonempty, in ascending length
of `a`: the candidate order in which a non-greedy `(.+?)` group is tried
by the backtracking regex engine. -/
def splits1 : LC → List (LC × LC)
  | [] => []
  | c :: cs => ([c], cs) :: (splits1 cs).map (fun p => (c :: p.1, p.2))

/-- Match the regex tail `(.+?).git$` against `l`: shortest nonempty
newline-free group, one arbitrary non-newline character (the unescaped
dot of the source pattern), then the literal `git` at the very end. -/
def tailGit (l : LC) : Option LC :=
  (splits1 l).findSome? fun pp =>
    if noNl pp.1 then
      match pp.2 with
      | [ch, 'g', 'i', 't'] => if ch ≠ '\n' then some pp.1 else none
      | _ => none
    else none

/-- Match `(.+?)/(.+?)/(.+?).git$` against `l` (what follows `https://` in
the extract pattern of `GitRepository.change_origin_type`), returning the
three captured groups chosen in backtracking non-greedy order. -/
def parseHttpsRest (l : LC) : Option (LC × LC × LC) :=
  (splits1 l).findSome? fun dp =>
    if noNl dp.1 then
      match dp.2 with
      | '/' :: r1 =>
        (splits1 r1).findSome? fun up =>
          if noNl up.1 then
            match up.2 with
            | '/' :: r2 =>
              match tailGit r2 with
              | some p => some (dp.1, up.1, p)
              | none => none
            | _ => none
          else none
      | _ => none
    else none

/-- Match `(.+?):(.+?)/(.+?)$` against `l` (what follows `git@` in the ssh
extract pattern), returning the three captured groups. -/
def parseSshRest (l : LC) : Option (LC × LC × LC) :=
  (splits1 l).findSome? fun dp =>
    if noNl dp.1 then
      match dp.2 with
      | ':' :: r1 =>
        (splits1 r1).findSome? fun up =>
          if noNl up.1 then
            match up.2 with
            | '/' :: r2 => if r2 ≠ [] ∧ noNl r2 then some (dp.1, up.1, r2) else none
            | _ => none
          else none
      | _ => none
    else none

/-- The rewritten URL `'https://{domain}/{user}/{repo}.git'`. -/
def mkHttps (d u r : LC) : LC :=
  "https://".toList ++ d ++ '/' :: u ++ '/' :: r ++ ".git".toList

/-- The rewritten URL `'git@{domain}:{user}/{repo}'`. -/
def mkSsh (d u r : LC) : LC :=
  "git@".toList ++ d ++ ':' :: u ++ '/' :: r

/-- The `extract_pattern` selection and `re.match(...).groups()` step of
`GitRepository.change_origin_type`: an origin starting with `https://`
or `git@` is parsed by the corresponding pattern (a failed match makes
`.groups()` raise `AttributeError`); any other origin leaves
`extract_pattern` unbound, so the `re.match` line raises
`UnboundLocalError`. -/
def extract_origin (org : LC) : Except PyErr (LC × LC × LC) :=
  if startsWithL "https://".toList org then
    match parseHttpsRest (org.drop 8) with
    | some t => .ok t
    | none => .error .attributeError
  else if startsWithL "git@".toList org then
    match parseSshRest (org.drop 4) with
    | some t => .ok t
    | none => .error .attributeError
  else .error .unboundLocalError

/-- Embedding of `GitRepository.change_origin_type`: given the current
origin it returns the new origin together with the list of external git
commands issued, or the exception raised.  The source parses the origin
before validating `new_type`, and both the in-memory assignment and the
`remote set-url` call happen only after all raises, so an exception
leaves the origin unchanged and runs no external command. -/
def change_origin_type (origin : Option String) (new_type : String) :
    Except PyErr (Option String × List String) :=
  match origin with
  | none => .ok (none, [])
  | some org =>
    match extract_origin org.toList with
    | .error e => .error e
    | .ok (domain, user, repo) =>
      if new_type = "https" then
        let newo : String := ⟨mkHttps domain user repo⟩
        .ok (some newo, ["remote set-url origin " ++ newo])
      else if new_type = "ssh" then
        let newo : String := ⟨mkSsh domain user repo⟩
        .ok (some newo, ["remote set-url origin " ++ newo])
      else .error .valueError

/-- Fields of a `Package` object. -/
structure PackState where
  setup : Option (List String)
  changes : Option (List String)
  version : Option String
  age : Option Int
  unpublished_commits : Option (List String)
deriving DecidableEq, Repr

/-- Embedding of `Package.__init__` (with `_refresh_from_changes`):
`setup_file` is the descriptor path (the descriptor exists, or the
constructor would not run), `changes?` carries the changelog's mtime and
text when `CHANGES.txt` exists.  With a changelog, the git log command
runs first, then the version is parsed as `read().split()[0]`, which
raises `IndexError` on whitespace-only content. -/
def package_init (env : GitEnv) (now : Int) (setup_file : List String)
    (changes? : Option (Int × String)) : Except PyErr PackState :=
  match changes? with
  | none => .ok ⟨some setup_file, none, none, none, none⟩
  | some (mtime, content) =>
    match env ("log --oneline --since=" ++ toString mtime) with
    | .error e => .error e
    | .ok out =>
      let unpub := ((splitOnNl out.toList).filter (fun ln => ln ≠ [])).map
        (fun ln => (⟨ln⟩ : String))
      match pySplit content.toList with
      | [] => .error .indexError
      | tok :: _ =>
        .ok ⟨some setup_file, some (setup_file.dropLast ++ ["CHANGES.txt"]),
             some ⟨tok⟩, some (now - mtime), some unpub⟩

/-- Embedding of the `GitRepository.problems` generator as the list of
diagnostics it yields, in yield order. -/
def repo_problems (s : RepoState) : List String :=
  (if s.is_dirty then ["has uncommited changes"] else []) ++
  (if 0 < s.ahead then ["has " ++ toString s.ahead ++ " commits to push"] else []) ++
  (if 0 < s.behind then ["has " ++ toString s.behind ++ " commits to pull"] else []) ++
  (match s.origin with
   | some o => if pyStartsWith "https" o then ["is using HTTPS to sync"] else []
   | none => [])

/-- Embedding of `Files.problems`: the deliberately empty generator. -/
def files_problems : List String := []

/-- Embedding of the `Package.problems` generator. -/
def package_problems (p : PackState) : List String :=
  (match p.setup with
   | none => ["has no setup.py file"]
   | some _ => []) ++
  (match p.changes with
   | none => ["has no CHANGES.txt file"]
   | some _ => []) ++
  (match p.unpublished_commits with
   | some cs => if 0 < cs.length then ["has " ++ toString cs.length ++ " commits to publish"] else []
   | none => [])

/-- The pieces of a `Project` that its `problems` property consults. -/
structure ProjState where
  name : String
  repo : RepoState
  package : Option PackState
  readme : Option String
deriving Repr

/-- Embedding of the `Project.problems` generator: repository stream, then
files stream, then (when a package exists) package stream, then the
project-level README check, nothing prefixed. -/
def project_problems (p : ProjState) : List String :=
  repo_problems p.repo ++ files_problems ++
  (match p.package with
   | some pk => package_problems pk
   | none => []) ++
  (match p.readme with
   | none => ["has no README"]
   | some _ => [])

/-- Embedding of the `Workspace.problems` generator over the projects in
iteration order: it yields `project.name + ' ' + problem` for every
problem of every project. -/
def workspace_problems : List ProjState → List String
  | [] => []
  | p :: rest =>
    (project_problems p).map (fun pr => p.name ++ " " ++ pr) ++ workspace_problems rest

/-- Concrete ignore matcher: the compiled form of the `.gitignore` line
`foo.py` is the regex `foo\.py`, and `re.match(r'foo\.py', name)` holds
exactly when `name` begins with the literal `foo.py`. -/
def patFooPy : Pat := fun n => pyStartsWith "foo.py" n

/-- Concrete tree: a root directory `r` containing the single source file
`foo.py`. -/
def treeC1 : Entry := .dir "r" (.cons (.file "foo.py") .nil)

/-- Concrete reader for the size-info scenario: `r/a.py` is readable text
with 3 lines, everything else raises a decode error. -/
def readC2 : List String → Except PyErr Nat := fun f =>
  if f = ["r", "a.py"] then .ok 3 else .error .decodeError

/-- Environment where the origin and status queries succeed but the log
query (and everything after it) fails. -/
def envC3 : GitEnv := fun c =>
  if c = "remote show -n origin" then .ok "Fetch URL: https://h/u/r.git\n"
  else if c = "status --porcelain" then .ok "M f\n"
  else .error .processError

/-- Environment where every command used by `refresh` succeeds. -/
def envAllOk : GitEnv := fun c =>
  if c = "remote show -n origin" then .ok "Fetch URL: git@h:u/r\n"
  else if c = "status --porcelain" then .ok ""
  else if c = logAtCmd then .ok "1700000000 rest"
  else if c = "status -b --porcelain" then .ok "## main...origin/main [ahead 2]\n"
  else if c = "shortlog -s" then .ok "     3\tboppreh"
  else .error .processError

/-- A stale repository state used as the pre-refresh object. -/
def stateA : RepoState :=
  ⟨none, false, 0, 5, 7, false, 11⟩

/-- A different stale repository state. -/
def stateB : RepoState :=
  ⟨some "x", true, 1, 2, 3, true, 9⟩

/-- The state `refresh` computes from `envAllOk` at time 1700000009. -/
def stateOk : RepoState :=
  ⟨some "git@h:u/r", false, 9, 2, 0, false, 3⟩

/-- A project with a clean, synced repository, no package and no README:
its only problem is the missing README. -/
def cproj : ProjState :=
  ⟨"proj", ⟨none, false, 0, 0, 0, true, 0⟩, none, none⟩

/-- Environment for the package scenario: the unpublished-commit log query
succeeds with empty output. -/
def envC10 : GitEnv := fun _ => .ok ""

/-- C1: the spec claims every file whose bare name matches a compiled
ignore pattern is excluded from the recorded file set.  The code stores
the compiled patterns in a one-shot generator that the walk exhausts at
the first directory entry, so with ignore rule `foo.py` (compiled to
`foo\.py`, i.e. names beginning with `foo.py`) a root `r` containing
`foo.py` still records `r/foo.py` even though the pattern matches its
bare name. -/
theorem ignored_pattern_file_still_recorded :
    patFooPy "foo.py" = true ∧
    (refreshEntry [] [patFooPy] [] treeC1).2 = [["r", "foo.py"]] :=
  ⟨by decide, rfl⟩

/-- C2: the spec claims an unreadable (non-UTF8) file is caught and
skipped during SLOC counting.  `Files._get_size_info` has no handler:
the decode error of `r/b.bin.py` aborts the whole computation, even
though the same loop on the readable prefix alone returns normally. -/
theorem decode_error_aborts_size_info :
    get_size_info readC2 [["r", "a.py"], ["r", "b.bin.py"]] = .error .decodeError ∧
    get_size_info readC2 [["r", "a.py"]] = .ok (3, some ["r", "a.py"]) :=
  ⟨rfl, rfl⟩

/-- C4: an entry whose name begins with the hidden marker `.` or the
temporary marker `__` is pruned with its whole subtree, whatever the
ignore patterns and the extension: the walk returns the accumulator and
the pattern state unchanged. -/
theorem hidden_entries_pruned (parent : List String) (pats : List Pat)
    (acc : List (List String)) (e : Entry)
    (h : pyStartsWith "." (ename e) = true ∨ pyStartsWith "__" (ename e) = true) :
    refreshEntry parent pats acc e = (pats, acc) := by
  have hcond : (pyStartsWith "." (ename e) || pyStartsWith "__" (ename e)) = true := by
    rcases h with h | h <;> simp [h]
  rw [refreshEntry, hcond]
  simp

/-- Witness for `hidden_entries_pruned`: a hidden directory containing a
recognizable source file contributes nothing. -/
theorem hidden_entries_pruned_witness :
    refreshEntry ["w"] [] []
      (Entry.dir ".git" (EntryList.cons (Entry.file "a.py") EntryList.nil)) = ([], []) :=
  hidden_entries_pruned ["w"] [] [] _ (Or.inl (by decide))

/-- C5: structure classification of the recorded file set: no files is
*empty*; one file directly under the root is *single file*; two or more
files, all directly under the root, is *multiple files*; and any file
nested two or more levels below the root makes the project a *module*
wherever the other files live. -/
theorem get_structure_spec (root : List String) (files : List (List String)) :
    (files = [] → get_structure root files = Project.EMPTY) ∧
    (∀ f, files = [f] → f.length = root.length + 1 →
      get_structure root files = Project.SINGLE_FILE) ∧
    (2 ≤ files.length → (∀ f ∈ files, f.length = root.length + 1) →
      get_structure root files = Project.MULTIPLE_FILES) ∧
    ((∃ f ∈ files, root.length + 2 ≤ f.length) →
      get_structure root files = Project.MODULE) := by
  refine ⟨?_, ?_, ?_, ?_⟩
  · intro h; subst h; rfl
  · rintro f rfl hf
    simp [get_structure, hf]
  · intro h2 hall
    have hany : files.any (fun f => decide (f.length > root.length + 1)) = false := by
      simp only [List.any_eq_false]
      intro f hf
      simp [hall f hf]
    have h0 : files.length ≠ 0 := by omega
    have h1 : files.length ≠ 1 := by omega
    simp [get_structure, hany, h0, h1]
  · rintro ⟨f, hf, hlen⟩
    have hne : files ≠ [] := List.ne_nil_of_mem hf
    have h0 : files.length ≠ 0 := by
      simpa [List.length_eq_zero] using hne
    have hany : files.any (fun f => decide (f.length > root.length + 1)) = true := by
      simp only [List.any_eq_true, decide_eq_true_eq]
      exact ⟨f, hf, by omega⟩
    simp [get_structure, hany, h0]

/-- Witness for `get_structure_spec`: one nested file forces *module*. -/
theorem get_structure_spec_witness :
    get_structure ["r"] [["r", "a", "b.py"], ["r", "c.py"]] = Project.MODULE :=
  (get_structure_spec ["r"] [["r", "a", "b.py"], ["r", "c.py"]]).2.2.2
    ⟨["r", "a", "b.py"], by decide, by decide⟩

/-- C10: with a packaging descriptor and a whitespace-only changelog, the
version parse `read().split()[0]` raises `IndexError`, so `Package`
construction fails instead of yielding an unknown-version sentinel. -/
theorem empty_changelog_version_index_error (env : GitEnv) (now : Int)
    (setup_file : List String) (mtime : Int) (content : String) (out : String)
    (henv : env ("log --oneline --since=" ++ toString mtime) = .ok out)
    (htok : pySplit content.toList = []) :
    package_init env now setup_file (some (mtime, content)) = .error .indexError := by
  simp only [package_init, henv, htok]

/-- Witness for `empty_changelog_version_index_error`: a blank
`CHANGES.txt` next to `setup.py`. -/
theorem empty_changelog_version_index_error_witness :
    package_init envC10 5 ["r", "setup.py"] (some (2, "  \n ")) = .error .indexError :=
  empty_changelog_version_index_error envC10 5 ["r", "setup.py"] 2 "  \n " "" rfl rfl

/-- C9 counterexample: the workspace stream is not the unchanged
concatenation of the project streams — `Workspace.problems` yields
`project.name + ' ' + problem`, so a project whose only problem is
`has no README` appears as `proj has no README` at workspace level. -/
theorem workspace_stream_not_unprefixed :
    workspace_problems [cproj] ≠ (List.map project_problems [cproj]).flatten := by
  decide

/-- C9 amended: a Project's problems view is exactly the concatenation, in
the order repository, files, package, project-level checks, of the
sub-entity streams with no prefix added; the Workspace-level report
concatenates the Projects' streams with each problem prefixed by the
project's name and a space. -/
theorem problems_composition (ps : List ProjState) (p : ProjState) :
    project_problems p =
      repo_problems p.repo ++ files_problems ++
        (match p.package with
         | some pk => package_problems pk
         | none => []) ++
        (match p.readme with
         | none => ["has no README"]
         | some _ => []) ∧
    workspace_problems ps =
      (ps.map (fun q => (project_problems q).map (fun pr => q.name ++ " " ++ pr))).flatten := by
  refine ⟨rfl, ?_⟩
  induction ps with
  | nil => rfl
  | cons q rest ih => simp [workspace_problems, ih]

/-- C8 counterexample: with a configured origin not in a recognized form
(`ftp://x`) and an invalid scheme (`bogus`), the raised exception is the
`UnboundLocalError` of the parse step, not the rejected-input
`ValueError`, because the source parses the origin before validating the
scheme argument. -/
theorem invalid_scheme_not_always_value_error :
    change_origin_type (some "ftp://x") "bogus" = .error .unboundLocalError ∧
    change_origin_type (some "ftp://x") "bogus" ≠ .error .valueError := by
  refine ⟨rfl, ?_⟩
  intro h
  have h2 := (rfl : change_origin_type (some "ftp://x") "bogus" =
    Except.error PyErr.unboundLocalError).symm.trans h
  injection h2 with h3
  exact PyErr.noConfusion h3

/-- C8 amended: with no configured origin the call is a no-op that runs no
external command; with an origin in a recognized (parseable) form, any
scheme other than `https` or `ssh` raises the rejected-input
`ValueError` — before any external command is issued and before the
in-memory origin is reassigned, both of which happen only on the
success path of the embedding. -/
theorem invalid_scheme_rejected (t org : String) (d u r : LC)
    (hparse : extract_origin org.toList = .ok (d, u, r))
    (h1 : t ≠ "https") (h2 : t ≠ "ssh") :
    change_origin_type none t = .ok (none, []) ∧
    change_origin_type (some org) t = .error .valueError := by
  refine ⟨rfl, ?_⟩
  simp only [change_origin_type, hparse, if_neg h1, if_neg h2]

/-- Witness for `invalid_scheme_rejected`: a parseable ssh origin and the
scheme `hg`. -/
theorem invalid_scheme_rejected_witness :
    change_origin_type none "hg" = .ok (none, []) ∧
    change_origin_type (some "git@h:u/r") "hg" = .error .valueError :=
  invalid_scheme_rejected "hg" "git@h:u/r" "h".toList "u".toList "r".toList rfl
    (by decide) (by decide)

/-- On a successful run (no exception), the result of `refresh` does not
depend on the previous object state: every field has been overwritten
with a value computed from the command outputs alone. -/
theorem refresh_success_independent (env : GitEnv) (now : Int) (s s' : RepoState) :
    (refresh env now s).2 = none → refresh env now s' = refresh env now s := by
  unfold refresh
  repeat' split
  all_goals intro hh
  all_goals first
  | rfl
  | exact absurd hh (by simp)

/-- C3 counterexample: when the log command fails after the origin and
status commands succeeded, `refresh` raises but the object has already
been partially updated — `origin` and `is_dirty` hold fresh values
while `ahead` and `commit_count` silently keep the stale ones, contrary
to the claimed all-or-nothing replacement. -/
theorem refresh_partial_update :
    (refresh envC3 0 stateA).2 = some PyErr.processError ∧
    stateA.origin = none ∧
    (refresh envC3 0 stateA).1.origin = some "https://h/u/r.git" ∧
    stateA.is_dirty = false ∧
    (refresh envC3 0 stateA).1.is_dirty = true ∧
    (refresh envC3 0 stateA).1.ahead = stateA.ahead ∧
    (refresh envC3 0 stateA).1.commit_count = stateA.commit_count := by
  decide

/-- C3 amended: a fully successful `refresh` replaces every field with a
value computed from the command outputs alone, independent of the
previous state; when a required command fails the exception propagates
and the fields assigned before the failure are fresh while the later
ones keep their previous values (see `refresh_partial_update`). -/
theorem refresh_success_replaces_all (env : GitEnv) (now : Int) (s s' t : RepoState)
    (h : refresh env now s = (t, none)) :
    refresh env now s' = (t, none) := by
  have h2 : (refresh env now s).2 = none := by rw [h]
  rw [refresh_success_independent env now s s' h2, h]

/-- Witness for `refresh_success_replaces_all`: a fully successful
environment gives the same refreshed state from two different stale
states. -/
theorem refresh_success_replaces_all_witness :
    refresh envAllOk 1700000009 stateB = (stateOk, none) :=
  refresh_success_replaces_all envAllOk 1700000009 stateA stateB stateOk (by decide)

/-- C6: after every successful refresh, the synced flag holds iff both the
parsed ahead count and the parsed behind count are zero. -/
theorem refresh_synced_iff (env : GitEnv) (now : Int) (s t : RepoState)
    (h : refresh env now s = (t, none)) :
    (t.synced = true ↔ (t.ahead = 0 ∧ t.behind = 0)) := by
  unfold refresh at h
  repeat' split at h
  all_goals simp only [Prod.mk.injEq, and_true] at h
  all_goals try exact Option.noConfusion h.2
  rw [← h]
  simp [and_comm]

/-- Witness for `refresh_synced_iff`: the refreshed state of `envAllOk` is
2 ahead, 0 behind and not synced. -/
theorem refresh_synced_iff_witness :
    (stateOk.synced = true ↔ (stateOk.ahead = 0 ∧ stateOk.behind = 0)) :=
  refresh_synced_iff envAllOk 1700000009 stateA stateOk (by decide)

/-- Soundness of the split enumeration: every candidate really decomposes
the list, with a nonempty first part. -/
theorem splits1_sound {l a b : LC} (h : (a, b) ∈ splits1 l) : l = a ++ b ∧ a ≠ [] := by
  induction l generalizing a b with
  | nil => simp [splits1] at h
  | cons c cs ih =>
    rw [splits1] at h
    rcases List.mem_cons.mp h with h | h
    · simp only [Prod.mk.injEq] at h
      obtain ⟨ha, hb⟩ := h
      subst ha; subst hb
      simp
    · obtain ⟨⟨p, q⟩, hpq, hc⟩ := List.mem_map.mp h
      simp only [Prod.mk.injEq] at hc
      obtain ⟨ha, hb⟩ := hc
      subst ha; subst hb
      obtain ⟨hl, hp⟩ := ih hpq
      subst hl
      simp

/-- Completeness of the split enumeration: every decomposition with a
nonempty first part is a candidate. -/
theorem splits1_complete {a : LC} (b : LC) (ha : a ≠ []) : (a, b) ∈ splits1 (a ++ b) := by
  induction a with
  | nil => exact absurd rfl ha
  | cons c cs ih =>
    cases cs with
    | nil => simp [splits1]
    | cons d ds =>
      have hm : (d :: ds, b) ∈ splits1 (d :: ds ++ b) := ih (by simp)
      rw [List.cons_append, splits1]
      exact List.mem_cons_of_mem _ (List.mem_map_of_mem _ hm)

/-- A scan that hits a match somewhere cannot come back empty. -/
theorem findSome?_isSome_of_mem {α β : Type} {f : α → Option β} {l : List α} {x : α} {v : β}
    (hx : x ∈ l) (hv : f x = some v) : ∃ w, l.findSome? f = some w := by
  cases hw : l.findSome? f with
  | some w => exact ⟨w, rfl⟩
  | none =>
    rw [List.findSome?_eq_none_iff] at hw
    rw [hw x hx] at hv
    cases hv

/-- Soundness of the `(.+?).git$` tail matcher. -/
theorem tailGit_sound {l p : LC} (h : tailGit l = some p) :
    ∃ ch, l = p ++ [ch, 'g', 'i', 't'] ∧ p ≠ [] ∧ noNl p = true ∧ ch ≠ '\n' := by
  obtain ⟨⟨a, b⟩, hmem, hf⟩ := List.exists_of_findSome?_eq_some h
  obtain ⟨hl, ha⟩ := splits1_sound hmem
  dsimp only at hf
  by_cases hna : noNl a
  · rw [if_pos hna] at hf
    split at hf
    · rename_i ch
      split at hf
      · rename_i hch
        injection hf with hap
        subst hap
        exact ⟨ch, hl, ha, hna, hch⟩
      · cases hf
    · cases hf
  · rw [if_neg hna] at hf
    cases hf

/-- Soundness of the https extract pattern: a successful parse exhibits the
input as `domain/user/repo` followed by one character and `git`, with
nonempty newline-free groups. -/
theorem parseHttpsRest_sound {l d u r : LC} (h : parseHttpsRest l = some (d, u, r)) :
    ∃ ch, l = d ++ '/' :: u ++ '/' :: r ++ [ch, 'g', 'i', 't'] ∧
      d ≠ [] ∧ u ≠ [] ∧ r ≠ [] ∧ noNl d = true ∧ noNl u = true ∧ noNl r = true ∧
      ch ≠ '\n' := by
  obtain ⟨⟨a, b⟩, hmem, hf⟩ := List.exists_of_findSome?_eq_some h
  obtain ⟨hl, ha⟩ := splits1_sound hmem
  dsimp only at hf
  by_cases hna : noNl a
  · rw [if_pos hna] at hf
    split at hf
    · rename_i r1
      obtain ⟨⟨a2, b2⟩, hmem2, hf2⟩ := List.exists_of_findSome?_eq_some hf
      obtain ⟨hl2, ha2⟩ := splits1_sound hmem2
      dsimp only at hf2
      by_cases hna2 : noNl a2
      · rw [if_pos hna2] at hf2
        split at hf2
        · rename_i r2
          cases htg : tailGit r2 with
          | none => rw [htg] at hf2; cases hf2
          | some p =>
            rw [htg] at hf2
            injection hf2 with hf3
            obtain ⟨hda, hub, hpr⟩ : a = d ∧ a2 = u ∧ p = r := by
              have h1 := congrArg Prod.fst hf3
              have h2 := congrArg (fun x => x.2.1) hf3
              have h3 := congrArg (fun x => x.2.2) hf3
              exact ⟨h1, h2, h3⟩
            subst hda; subst hub; subst hpr
            obtain ⟨ch, hr2, hp, hnp, hch⟩ := tailGit_sound htg
            subst hr2
            exact ⟨ch, by rw [hl, hl2]; simp, ha, ha2, hp, hna, hna2, hnp, hch⟩
        · cases hf2
      · rw [if_neg hna2] at hf2
        cases hf2
    · cases hf
  · rw [if_neg hna] at hf
    cases hf

/-- Soundness of the ssh extract pattern. -/
theorem parseSshRest_sound {l d u r : LC} (h : parseSshRest l = some (d, u, r)) :
    l = d ++ ':' :: u ++ '/' :: r ∧
      d ≠ [] ∧ u ≠ [] ∧ r ≠ [] ∧ noNl d = true ∧ noNl u = true ∧ noNl r = true := by
  obtain ⟨⟨a, b⟩, hmem, hf⟩ := List.exists_of_findSome?_eq_some h
  obtain ⟨hl, ha⟩ := splits1_sound hmem
  dsimp only at hf
  by_cases hna : noNl a
  · rw [if_pos hna] at hf
    split at hf
    · rename_i r1
      obtain ⟨⟨a2, b2⟩, hmem2, hf2⟩ := List.exists_of_findSome?_eq_some hf
      obtain ⟨hl2, ha2⟩ := splits1_sound hmem2
      dsimp only at hf2
      by_cases hna2 : noNl a2
      · rw [if_pos hna2] at hf2
        split at hf2
        · rename_i r2
          split at hf2
          · rename_i hr2
            injection hf2 with hf3
            obtain ⟨hda, hub, hpr⟩ : a = d ∧ a2 = u ∧ r2 = r := by
              have h1 := congrArg Prod.fst hf3
              have h2 := congrArg (fun x => x.2.1) hf3
              have h3 := congrArg (fun x => x.2.2) hf3
              exact ⟨h1, h2, h3⟩
            subst hda; subst hub; subst hpr
            exact ⟨by rw [hl, hl2]; simp, ha, ha2, hr2.1, hna, hna2, hr2.2⟩
          · cases hf2
        · cases hf2
      · rw [if_neg hna2] at hf2
        cases hf2
    · cases hf
  · rw [if_neg hna] at hf
    cases hf

/-- The tail matcher succeeds on the canonical `repo.git` tail. -/
theorem tailGit_mk {p : LC} (hp : p ≠ []) (hnp : noNl p = true) :
    ∃ w, tailGit (p ++ ['.', 'g', 'i', 't']) = some w := by
  cases hq : tailGit (p ++ ['.', 'g', 'i', 't']) with
  | some w => exact ⟨w, rfl⟩
  | none =>
    exfalso
    rw [tailGit, List.findSome?_eq_none_iff] at hq
    have h1 := hq (p, ['.', 'g', 'i', 't']) (splits1_complete _ hp)
    dsimp only at h1
    rw [if_pos hnp] at h1
    simp at h1

/-- The https extract pattern succeeds on every canonical rewritten URL
body. -/
theorem parseHttpsRest_mk {d u r : LC} (hd : d ≠ []) (hu : u ≠ []) (hr : r ≠ [])
    (nd : noNl d = true) (nu : noNl u = true) (nr : noNl r = true) :
    ∃ t, parseHttpsRest (d ++ '/' :: (u ++ '/' :: (r ++ ['.', 'g', 'i', 't']))) = some t := by
  cases hq : parseHttpsRest (d ++ '/' :: (u ++ '/' :: (r ++ ['.', 'g', 'i', 't']))) with
  | some t => exact ⟨t, rfl⟩
  | none =>
    exfalso
    rw [parseHttpsRest, List.findSome?_eq_none_iff] at hq
    have h1 := hq (d, '/' :: (u ++ '/' :: (r ++ ['.', 'g', 'i', 't'])))
      (splits1_complete _ hd)
    dsimp only at h1
    rw [if_pos nd] at h1
    have h2 : List.findSome?
        (fun up =>
          if noNl up.1 = true then
            match up.2 with
            | '/' :: r2 =>
              match tailGit r2 with
              | some p => some (d, up.1, p)
              | none => none
            | _ => none
          else none)
        (splits1 (u ++ '/' :: (r ++ ['.', 'g', 'i', 't']))) = none := h1
    rw [List.findSome?_eq_none_iff] at h2
    have h3 := h2 (u, '/' :: (r ++ ['.', 'g', 'i', 't'])) (splits1_complete _ hu)
    dsimp only at h3
    rw [if_pos nu] at h3
    obtain ⟨w, hw⟩ := tailGit_mk hr nr
    simp [hw] at h3

/-- A list always starts with its own prefix. -/
theorem startsWithL_append (p q : LC) : startsWithL p (p ++ q) = true := by
  induction p with
  | nil => rfl
  | cons c cs ih => simp [startsWithL, ih]

/-- Whatever groups the https pattern extracts from a canonical rewritten
URL body reassemble to the original `domain/user/repo` section: the
pattern's final literal `git` is anchored at the end, so the character
matched by the unescaped dot must be the original `'.'`. -/
theorem parseHttpsRest_reconstruct {d u r a b p : LC}
    (h : parseHttpsRest (d ++ '/' :: (u ++ '/' :: (r ++ ['.', 'g', 'i', 't']))) = some (a, b, p)) :
    a ++ '/' :: (b ++ '/' :: p) = d ++ '/' :: (u ++ '/' :: r) := by
  obtain ⟨ch, hl, _, _, _, _, _, _, _⟩ := parseHttpsRest_sound h
  have hL : (d ++ '/' :: (u ++ '/' :: r)) ++ ['.', 'g', 'i', 't'] =
      (a ++ '/' :: (b ++ '/' :: p)) ++ [ch, 'g', 'i', 't'] := by
    simpa [List.append_assoc] using hl
  exact (List.append_inj' hL (by simp)).1.symm

/-- The groups produced by a successful `extract_origin` are nonempty and
newline-free, whichever branch parsed them. -/
theorem extract_origin_parts {org d u r : LC} (h : extract_origin org = .ok (d, u, r)) :
    d ≠ [] ∧ u ≠ [] ∧ r ≠ [] ∧ noNl d = true ∧ noNl u = true ∧ noNl r = true := by
  unfold extract_origin at h
  by_cases h1 : startsWithL "https://".toList org = true
  · rw [if_pos h1] at h
    cases hp : parseHttpsRest (org.drop 8) with
    | none => rw [hp] at h; cases h
    | some t =>
      rw [hp] at h
      injection h with h2
      subst h2
      obtain ⟨ch, _, hd, hu, hr, nd, nu, nr, _⟩ := parseHttpsRest_sound hp
      exact ⟨hd, hu, hr, nd, nu, nr⟩
  · rw [if_neg h1] at h
    by_cases h2 : startsWithL "git@".toList org = true
    · rw [if_pos h2] at h
      cases hp : parseSshRest (org.drop 4) with
      | none => rw [hp] at h; cases h
      | some t =>
        rw [hp] at h
        injection h with h3
        subst h3
        obtain ⟨_, hd, hu, hr, nd, nu, nr⟩ := parseSshRest_sound hp
        exact ⟨hd, hu, hr, nd, nu, nr⟩
    · rw [if_neg h2] at h
      cases h

/-- Reassociated form of a rewritten https URL. -/
theorem mkHttps_assoc (x y z : LC) :
    mkHttps x y z = "https://".toList ++ ((x ++ '/' :: (y ++ '/' :: z)) ++ ".git".toList) := by
  simp [mkHttps]

/-- Re-extracting from a canonical rewritten https URL succeeds and the
re-extracted groups rebuild the very same URL. -/
theorem extract_origin_mkHttps {d u r : LC} (hd : d ≠ []) (hu : u ≠ []) (hr : r ≠ [])
    (nd : noNl d = true) (nu : noNl u = true) (nr : noNl r = true) :
    ∃ a b p, extract_origin (mkHttps d u r) = .ok (a, b, p) ∧ mkHttps a b p = mkHttps d u r := by
  obtain ⟨⟨a, b, p⟩, hp⟩ := parseHttpsRest_mk hd hu hr nd nu nr
  have hsw : startsWithL "https://".toList (mkHttps d u r) = true :=
    startsWithL_append "https://".toList (d ++ '/' :: u ++ '/' :: r ++ ".git".toList)
  have hdrop : (mkHttps d u r).drop 8 = d ++ '/' :: (u ++ '/' :: (r ++ ['.', 'g', 'i', 't'])) := by
    have hshape : mkHttps d u r =
        "https://".toList ++ (d ++ '/' :: (u ++ '/' :: (r ++ ['.', 'g', 'i', 't']))) := by
      simp [mkHttps]
    rw [hshape]
    exact List.drop_left' (by rfl)
  refine ⟨a, b, p, ?_, ?_⟩
  · rw [extract_origin, if_pos hsw, hdrop, hp]
  · have hrec := parseHttpsRest_reconstruct hp
    rw [mkHttps_assoc, mkHttps_assoc, hrec]

/-- C7: `changeOriginProtocol` is idempotent for `https`: whenever one
application on a recognized origin succeeds and installs the in-memory
URL `o1`, a second application parses `o1` again and installs the same
URL (and issues the same external command). -/
theorem change_origin_https_idem (org o1 : String) (cs : List String)
    (h : change_origin_type (some org) "https" = .ok (some o1, cs)) :
    change_origin_type (some o1) "https" = .ok (some o1, cs) := by
  unfold change_origin_type at h
  dsimp only at h
  cases hx : extract_origin org.toList with
  | error e => rw [hx] at h; cases h
  | ok t3 =>
    obtain ⟨d, u, r⟩ := t3
    rw [hx] at h
    dsimp only at h
    rw [if_pos rfl] at h
    injection h with h
    simp only [Prod.mk.injEq] at h
    obtain ⟨ho1, hcs⟩ := h
    injection ho1 with ho1
    obtain ⟨hd, hu, hr, nd, nu, nr⟩ := extract_origin_parts hx
    obtain ⟨a, b, p, hex, hmk⟩ := extract_origin_mkHttps hd hu hr nd nu nr
    subst hcs
    subst ho1
    unfold change_origin_type
    dsimp only
    have htl : (⟨mkHttps d u r⟩ : String).toList = mkHttps d u r := rfl
    rw [htl, hex]
    dsimp only
    rw [if_pos rfl]
    rw [hmk]

/-- Witness for `change_origin_https_idem`: converting the ssh origin
`git@h:u/r` to https yields `https://h/u/r.git`, and converting again
yields the same URL. -/
theorem change_origin_https_idem_witness :
    change_origin_type (some "https://h/u/r.git") "https" =
      .ok (some "https://h/u/r.git", ["remote set-url origin https://h/u/r.git"]) :=
  change_origin_https_idem "git@h:u/r" "https://h/u/r.git"
    ["remote set-url origin https://h/u/r.git"] rfl
